import Mathlib

/-!
Verification of the overlay tracker (`FileChangeHandler`, from
`src/analysis/file_change_handler.ts`) and the analysis-completion tracker
of the Dart-Code analysis-server bridge, as a shallow embedding in Lean.

Editor documents are modelled as records carrying the result of the
external `util.isAnalyzable` predicate; the handler's observable actions
(`analyzer.analysisUpdateContent`, `vs.window.showWarningMessage`) are
reified as an `Effect` list in emission order.
-/

namespace DartCode

/-- `as.SourceEdit` as built by `FileChangeHandler.convertChange`. -/
structure SourceEdit where
  id : String
  length : Nat
  offset : Nat
  replacement : String
  deriving DecidableEq, Repr

/-- The three overlay kinds of `analysis_server_types`
(`AddContentOverlay`, `ChangeContentOverlay`, `RemoveContentOverlay`). -/
inductive Overlay where
  | add (content : String)
  | change (edits : List SourceEdit)
  | remove
  deriving DecidableEq, Repr

/-- A `vs.TextDocument` snapshot: its `fsPath`, its full text
(`document.getText()`), and the result of the external predicate
`util.isAnalyzable(document)`. -/
structure TextDocument where
  path : String
  text : String
  analyzable : Bool
  deriving DecidableEq, Repr

/-- One `vs.TextDocumentContentChangeEvent` record. -/
structure ContentChange where
  rangeOffset : Nat
  rangeLength : Nat
  text : String
  deriving DecidableEq, Repr

/-- A `vs.TextDocumentChangeEvent`. -/
structure TextDocumentChangeEvent where
  document : TextDocument
  contentChanges : List ContentChange
  deriving DecidableEq, Repr

/-- Observable actions of the handler: a call to
`analyzer.analysisUpdateContent({ files })` (the files map listed as
insertion-ordered pairs) or `vs.window.showWarningMessage(msg)`. -/
inductive Effect where
  | updateContent (files : List (String × Overlay))
  | showWarning (msg : String)
  deriving DecidableEq, Repr

/-- Ambient values the handler consults:
`config.warnWhenEditingFilesOutsideWorkspace` and the external predicate
`util.isWithinWorkspace`. -/
structure Env where
  warnWhenEditingFilesOutsideWorkspace : Bool
  isWithinWorkspace : String → Bool

/-- Mutable state of a `FileChangeHandler`: the `filesWarnedAbout` set
(modelled as the list of inserted paths). -/
structure HandlerState where
  filesWarnedAbout : List String
  deriving DecidableEq, Repr

/-- The state after `new FileChangeHandler(...)`: `filesWarnedAbout` empty. -/
def initialHandlerState : HandlerState := ⟨[]⟩

/-- The message passed to `showWarningMessage` at line 48. -/
def warnMessage (filePath : String) : String :=
  "You are modifying a file outside of your current workspace: " ++ filePath

/-- `FileChangeHandler.convertChange`. -/
def convertChange (change : ContentChange) : SourceEdit :=
  { id := ""
    length := change.rangeLength
    offset := change.rangeOffset
    replacement := change.text }

/-- `FileChangeHandler.onDidOpenTextDocument`. -/
def onDidOpenTextDocument (document : TextDocument) : List Effect :=
  if !document.analyzable then
    []
  else
    [.updateContent [(document.path, .add document.text)]]

/-- `FileChangeHandler.onDidChangeTextDocument`: returns the updated
handler state and the effects emitted, in order. -/
def onDidChangeTextDocument (env : Env) (st : HandlerState)
    (e : TextDocumentChangeEvent) : HandlerState × List Effect :=
  if !e.document.analyzable then
    (st, [])
  else if e.contentChanges.length == 0 then
    (st, [])
  else
    let filePath := e.document.path
    let warned : HandlerState × List Effect :=
      if env.warnWhenEditingFilesOutsideWorkspace
          && !(st.filesWarnedAbout.contains filePath)
          && !(env.isWithinWorkspace filePath) then
        (⟨filePath :: st.filesWarnedAbout⟩, [Effect.showWarning (warnMessage filePath)])
      else
        (st, [])
    (warned.1, warned.2 ++ [.updateContent
      [(filePath, .change (e.contentChanges.map convertChange))]])

/-- `FileChangeHandler.onDidCloseTextDocument`. -/
def onDidCloseTextDocument (document : TextDocument) : List Effect :=
  if !document.analyzable then
    []
  else
    [.updateContent [(document.path, .remove)]]

/-- An editor event routed to the handler by the subscriptions made in the
constructor. -/
inductive DocEvent where
  | didOpen (d : TextDocument)
  | didChange (d : TextDocument) (changes : List ContentChange)
  | didClose (d : TextDocument)
  deriving DecidableEq, Repr

/-- Dispatch one editor event to the matching handler method. -/
def handleEvent (env : Env) (st : HandlerState) :
    DocEvent → HandlerState × List Effect
  | .didOpen d => (st, onDidOpenTextDocument d)
  | .didChange d cs => onDidChangeTextDocument env st ⟨d, cs⟩
  | .didClose d => (st, onDidCloseTextDocument d)

/-- Run a sequence of editor events, collecting all emitted effects in
order. -/
def runEvents (env : Env) (st : HandlerState) :
    List DocEvent → HandlerState × List Effect
  | [] => (st, [])
  | e :: rest =>
    let step := handleEvent env st e
    let tail := runEvents env step.1 rest
    (tail.1, step.2 ++ tail.2)

/-- Replace, in `s`, the `length` characters starting at `offset` with
`replacement` (the text-splice meaning of both editor change records and
protocol source edits). -/
def spliceString (s : String) (offset length : Nat) (replacement : String) : String :=
  s.take offset ++ replacement ++ s.drop (offset + length)

/-- Apply one editor change record to document text. -/
def applyContentChange (s : String) (c : ContentChange) : String :=
  spliceString s c.rangeOffset c.rangeLength c.text

/-- Apply one protocol source edit to overlay text. -/
def applySourceEdit (s : String) (e : SourceEdit) : String :=
  spliceString s e.offset e.length e.replacement

/-- Apply a batch of editor change records in order. -/
def applyContentChanges (s : String) (cs : List ContentChange) : String :=
  cs.foldl applyContentChange s

/-- Apply a batch of protocol source edits in order. -/
def applySourceEdits (s : String) (es : List SourceEdit) : String :=
  es.foldl applySourceEdit s

/-- The source-edit batches carried by the `change` overlays among a list
of effects, in emission order. -/
def changeEditBatches (fx : List Effect) : List (List SourceEdit) :=
  fx.flatMap fun
    | .updateContent files =>
      files.filterMap fun fo =>
        match fo.2 with
        | .change edits => some edits
        | _ => none
    | _ => []

/-- Replay extracted edit batches over a starting text, batch by batch. -/
def replayEditBatches (s : String) (batches : List (List SourceEdit)) : String :=
  batches.foldl applySourceEdits s

/-- One editing session on a single document: starting from text `text`,
fire one `onDidChangeTextDocument` event per batch in `batches`, the
document text evolving by applying each batch's records in order. Returns
the final handler state, the final document text, and all emitted effects
in order. -/
def runDocChanges (env : Env) (st : HandlerState) (path : String)
    (analyzable : Bool) (text : String) :
    List (List ContentChange) → HandlerState × String × List Effect
  | [] => (st, text, [])
  | batch :: rest =>
    let step := onDidChangeTextDocument env st ⟨⟨path, text, analyzable⟩, batch⟩
    let tail :=
      runDocChanges env step.1 path analyzable (applyContentChanges text batch) rest
    (tail.1, tail.2.1, step.2 ++ tail.2.2)

/-- Whether an effect is the out-of-workspace warning shown for path `p`. -/
def isWarnFor (p : String) : Effect → Bool
  | .showWarning msg => msg == warnMessage p
  | _ => false

/-- Count, among emitted effects, the out-of-workspace warnings shown for
path `p`. -/
def warnCount (p : String) (fx : List Effect) : Nat :=
  (fx.filter (isWarnFor p)).length

/-- Whether every `analysisUpdateContent` call in the effect list carries
exactly one file entry. -/
def allSingleFile (fx : List Effect) : Bool :=
  fx.all fun
    | .updateContent files => files.length == 1
    | _ => true

/-- The path of the document an editor event is about. -/
def eventDocPath : DocEvent → String
  | .didOpen d => d.path
  | .didChange d _ => d.path
  | .didClose d => d.path

/-- Whether every `analysisUpdateContent` call in the effect list carries
a files map with exactly one entry, and that entry is keyed by path `p`. -/
def allSingleFileFor (p : String) (fx : List Effect) : Bool :=
  fx.all fun
    | .updateContent files =>
      match files with
      | [fo] => fo.1 == p
      | _ => false
    | _ => true

/-- The overlay operations (path, overlay) carried by the
`analysisUpdateContent` calls among a list of effects, in order. -/
def overlayOps (fx : List Effect) : List (String × Overlay) :=
  fx.flatMap fun
    | .updateContent files => files
    | _ => []

/-- Number of `add` overlays among the emitted effects. -/
def addOverlayCount (fx : List Effect) : Nat :=
  (fx.flatMap fun
    | .updateContent files =>
      files.filter fun fo =>
        match fo.2 with
        | .add _ => true
        | _ => false
    | _ => []).length

end DartCode

namespace DartCode.Analysis

/-- Modelled from the spec: the events the Notification Router observes
for analysis-completion tracking — the server's `analysis started` and
`analysis finished` notifications (the `nextAnalysis` / `currentAnalysis`
implementation is not under `src/`; only its test-helper caller
`waitForNextAnalysis` is). -/
inductive AnalysisEvent where
  | started
  | finished
  deriving DecidableEq, Repr

/-- Modelled from the spec: the internal busy flag — an `analysis started`
event transitions it to busy, `analysis finished` to idle. -/
def stepBusy (_busy : Bool) : AnalysisEvent → Bool
  | .started => true
  | .finished => false

/-- Busy flag after processing a trace of analysis events from the idle
session-start state. -/
def busyAfter (trace : List AnalysisEvent) : Bool :=
  trace.foldl stepBusy false

/-- Modelled from the spec: well-formedness of a server notification
trace — the server reports `analysis finished` only while analysis is
busy, i.e. every finish is paired with a preceding start. -/
def validFrom (busy : Bool) : List AnalysisEvent → Bool
  | [] => true
  | .started :: rest => validFrom true rest
  | .finished :: rest => busy && validFrom false rest

/-- Modelled from the spec: the current Analysis Round Token, which the
next `analysis finished` notification resolves ("analysis finished …
resolves the current Analysis Round Token"); `resolveIndex suffix` is the
position, within an event suffix, of the finished event that resolves it. -/
def resolveIndex : List AnalysisEvent → Option Nat
  | [] => none
  | .finished :: _ => some 0
  | .started :: rest => (resolveIndex rest).map (· + 1)

/-- Modelled from the spec: the token returned by `awaitNextRound()` /
`nextAnalysis()` — its implementation is not under `src/`, and the spec's
contract is that it "always returns a token that resolves only after at
least one full start→finish cycle occurs after the call". Scanning the
notifications that follow the call, the token resolves at the first
`analysis finished` event preceded by an `analysis started` event after
the call; `seenStart` records whether such a start has occurred yet, so a
finish belonging to a round already in flight at call time is skipped. -/
def nextRoundIdx (seenStart : Bool) : List AnalysisEvent → Option Nat
  | [] => none
  | .started :: rest => (nextRoundIdx true rest).map (· + 1)
  | .finished :: rest =>
    if seenStart then some 0
    else (nextRoundIdx false rest).map (· + 1)

/-- Modelled from the spec: the position, within the notification suffix
after the `awaitNextRound()` / `nextAnalysis()` call, at which the
returned token resolves (no start has been seen at the moment of the
call). -/
def nextRoundResolveIndex (suffix : List AnalysisEvent) : Option Nat :=
  nextRoundIdx false suffix

end DartCode.Analysis

namespace DartCode

theorem warnMessage_inj {p q : String} (h : warnMessage p = warnMessage q) :
    p = q := by
  have hd := congrArg String.data h
  simp only [warnMessage, String.data_append] at hd
  exact String.ext (List.append_cancel_left hd)

theorem warnCount_append (p : String) (a b : List Effect) :
    warnCount p (a ++ b) = warnCount p a + warnCount p b := by
  simp [warnCount, List.filter_append]

theorem changeEditBatches_append (a b : List Effect) :
    changeEditBatches (a ++ b) = changeEditBatches a ++ changeEditBatches b := by
  simp [changeEditBatches]

theorem replayEditBatches_append (s : String) (a b : List (List SourceEdit)) :
    replayEditBatches s (a ++ b) = replayEditBatches (replayEditBatches s a) b := by
  simp [replayEditBatches, List.foldl_append]

theorem applySourceEdits_map_convertChange (s : String) (cs : List ContentChange) :
    applySourceEdits s (cs.map convertChange) = applyContentChanges s cs := by
  induction cs generalizing s with
  | nil => rfl
  | cons c rest ih =>
    simpa [applySourceEdits, applyContentChanges] using ih (applyContentChange s c)

end DartCode

namespace DartCode

/-- C1: for an analyzable document, the event sequence
open(D, "a"); change(D, [{offset:0, length:1, replacement:"ab"}]); close(D)
emits exactly, in order: an add overlay with content "a" (the document's
full text), a change overlay with edits [{offset:0, length:1,
replacement:"ab"}], and a remove overlay — the add coming from
`onDidOpenTextDocument` with the full current text and the remove from
`onDidCloseTextDocument`. -/
theorem c1_overlay_sequence :
    (runEvents ⟨true, fun _ => true⟩ initialHandlerState
        [.didOpen ⟨"/ws/a.dart", "a", true⟩,
         .didChange ⟨"/ws/a.dart", "ab", true⟩
           [⟨(0 : Nat), (1 : Nat), "ab"⟩],
         .didClose ⟨"/ws/a.dart", "ab", true⟩]).2 =
      [.updateContent [("/ws/a.dart", .add "a")],
       .updateContent [("/ws/a.dart",
         .change [⟨"", (1 : Nat), (0 : Nat), "ab"⟩])],
       .updateContent [("/ws/a.dart", .remove)]]
    ∧ onDidOpenTextDocument ⟨"/ws/a.dart", "a", true⟩ =
        [.updateContent [("/ws/a.dart", .add "a")]]
    ∧ onDidCloseTextDocument ⟨"/ws/a.dart", "ab", true⟩ =
        [.updateContent [("/ws/a.dart", .remove)]] :=
  ⟨rfl, rfl, rfl⟩

/-- C6: a change event whose content-change list is empty causes no call
to `analysisUpdateContent` (and no other effect) and leaves the handler
state unchanged. -/
theorem c6_empty_change_batch_noop (env : Env) (st : HandlerState)
    (e : TextDocumentChangeEvent) (h : e.contentChanges = []) :
    onDidChangeTextDocument env st e = (st, []) := by
  cases hA : e.document.analyzable <;>
    simp [onDidChangeTextDocument, hA, h]

/-- Witness for C6 at a concrete empty change event. -/
theorem c6_empty_change_batch_noop_witness :
    (TextDocumentChangeEvent.contentChanges
        ⟨⟨"/ws/a.dart", "a", true⟩, []⟩ = [])
    ∧ onDidChangeTextDocument ⟨true, fun _ => true⟩ initialHandlerState
        ⟨⟨"/ws/a.dart", "a", true⟩, []⟩ = (initialHandlerState, []) :=
  ⟨rfl, c6_empty_change_batch_noop ⟨true, fun _ => true⟩ initialHandlerState
    ⟨⟨"/ws/a.dart", "a", true⟩, []⟩ rfl⟩

/-- C7: for a non-analyzable document, open, change and close events emit
no effect at all — in particular `analysisUpdateContent` is never
invoked — and the handler state is unchanged. -/
theorem c7_non_analyzable_ignored (env : Env) (st : HandlerState)
    (d : TextDocument) (cs : List ContentChange)
    (h : d.analyzable = false) :
    onDidOpenTextDocument d = []
    ∧ onDidChangeTextDocument env st ⟨d, cs⟩ = (st, [])
    ∧ onDidCloseTextDocument d = [] := by
  refine ⟨?_, ?_, ?_⟩ <;>
    simp [onDidOpenTextDocument, onDidChangeTextDocument,
      onDidCloseTextDocument, h]

/-- Witness for C7 at a concrete non-analyzable document. -/
theorem c7_non_analyzable_ignored_witness :
    (TextDocument.analyzable ⟨"/ws/notes.txt", "hi", false⟩ = false)
    ∧ (onDidOpenTextDocument ⟨"/ws/notes.txt", "hi", false⟩ = []
      ∧ onDidChangeTextDocument ⟨true, fun _ => true⟩ initialHandlerState
          ⟨⟨"/ws/notes.txt", "hi", false⟩, [⟨(0 : Nat), (0 : Nat), "x"⟩]⟩ =
          (initialHandlerState, [])
      ∧ onDidCloseTextDocument ⟨"/ws/notes.txt", "hi", false⟩ = []) :=
  ⟨rfl, c7_non_analyzable_ignored ⟨true, fun _ => true⟩ initialHandlerState
    ⟨"/ws/notes.txt", "hi", false⟩ [⟨(0 : Nat), (0 : Nat), "x"⟩] rfl⟩

end DartCode

namespace DartCode

/-- C3: a non-empty change event on an analyzable document emits exactly
one overlay operation — a `change` overlay for that document's path whose
edits list has one source edit per editor change record, in the records'
original order, each edit's offset/length/replacement equal to the
record's rangeOffset/rangeLength/text (and id the empty string). -/
theorem c3_change_edits_match_records (env : Env) (st : HandlerState)
    (e : TextDocumentChangeEvent) (hA : e.document.analyzable = true)
    (hNE : e.contentChanges ≠ []) :
    overlayOps (onDidChangeTextDocument env st e).2 =
      [(e.document.path, .change (e.contentChanges.map fun c =>
        { id := ""
          length := c.rangeLength
          offset := c.rangeOffset
          replacement := c.text }))] := by
  have hlen : (e.contentChanges.length == 0) = false := by
    simpa using hNE
  simp only [onDidChangeTextDocument, hA, hlen, Bool.not_true,
    Bool.false_eq_true, if_false, beq_iff_eq]
  split <;> simp [overlayOps, convertChange]

/-- Witness for C3 on a concrete two-record change event. -/
theorem c3_change_edits_match_records_witness :
    (TextDocument.analyzable ⟨"/ws/a.dart", "ab", true⟩ = true)
    ∧ ([(⟨(0 : Nat), (1 : Nat), "ab"⟩ : ContentChange),
        ⟨(5 : Nat), (2 : Nat), "z"⟩] ≠ [])
    ∧ overlayOps (onDidChangeTextDocument ⟨true, fun _ => true⟩
        initialHandlerState
        ⟨⟨"/ws/a.dart", "ab", true⟩,
         [⟨(0 : Nat), (1 : Nat), "ab"⟩, ⟨(5 : Nat), (2 : Nat), "z"⟩]⟩).2 =
      [("/ws/a.dart", .change
        ([(⟨(0 : Nat), (1 : Nat), "ab"⟩ : ContentChange),
          ⟨(5 : Nat), (2 : Nat), "z"⟩].map fun c =>
          { id := ""
            length := c.rangeLength
            offset := c.rangeOffset
            replacement := c.text }))] :=
  ⟨rfl, by simp,
    c3_change_edits_match_records ⟨true, fun _ => true⟩ initialHandlerState
      ⟨⟨"/ws/a.dart", "ab", true⟩,
       [⟨(0 : Nat), (1 : Nat), "ab"⟩, ⟨(5 : Nat), (2 : Nat), "z"⟩]⟩
      rfl (by simp)⟩

/-- C4 counterexample: a change event on an analyzable document that was
never opened (the run contains no open event at all) emits only the
change overlay — no add overlay carrying the document's text is emitted,
contradicting the claimed implicit-open behaviour. -/
theorem c4_counterexample :
    (runEvents ⟨true, fun _ => true⟩ initialHandlerState
        [.didChange ⟨"/ws/never.dart", "x", true⟩
          [⟨(0 : Nat), (0 : Nat), "x"⟩]]).2 =
      [.updateContent [("/ws/never.dart",
        .change [⟨"", (0 : Nat), (0 : Nat), "x"⟩])]]
    ∧ addOverlayCount (runEvents ⟨true, fun _ => true⟩ initialHandlerState
        [.didChange ⟨"/ws/never.dart", "x", true⟩
          [⟨(0 : Nat), (0 : Nat), "x"⟩]]).2 = 0 :=
  ⟨rfl, rfl⟩

/-- C4 amended: a change event is never treated as an implicit open —
`onDidChangeTextDocument` emits no add overlay for any environment, any
handler state and any change event (opened or not; the handler keeps no
record of which documents were opened). -/
theorem c4_amended_change_never_emits_add (env : Env) (st : HandlerState)
    (e : TextDocumentChangeEvent) :
    addOverlayCount (onDidChangeTextDocument env st e).2 = 0 := by
  unfold onDidChangeTextDocument
  split
  · rfl
  · split
    · rfl
    · dsimp only
      split <;> simp [addOverlayCount]

/-- C5 counterexample: closing an analyzable document that was never
opened (the run contains only the close event, from the initial handler
state) is not a no-op — a remove overlay is emitted. -/
theorem c5_counterexample :
    (runEvents ⟨true, fun _ => true⟩ initialHandlerState
        [.didClose ⟨"/ws/never.dart", "x", true⟩]).2 =
      [.updateContent [("/ws/never.dart", .remove)]]
    ∧ (runEvents ⟨true, fun _ => true⟩ initialHandlerState
        [.didClose ⟨"/ws/never.dart", "x", true⟩]).2 ≠ [] :=
  ⟨rfl, by decide⟩

/-- C5 amended: a close event emits exactly one remove overlay whenever
the document is analyzable — whether or not it was ever opened (the
handler keeps no record of opened documents) — and nothing for a
non-analyzable document; in either case no error is raised. -/
theorem c5_amended_close_always_removes (d : TextDocument) :
    onDidCloseTextDocument d =
      if d.analyzable then [.updateContent [(d.path, .remove)]] else [] := by
  cases hA : d.analyzable <;> simp [onDidCloseTextDocument, hA]

end DartCode

namespace DartCode

theorem allSingleFile_append (a b : List Effect) :
    allSingleFile (a ++ b) = (allSingleFile a && allSingleFile b) := by
  simp [allSingleFile, List.all_append]

theorem handleEvent_allSingleFile (env : Env) (st : HandlerState)
    (e : DocEvent) : allSingleFile (handleEvent env st e).2 = true := by
  cases e with
  | didOpen d =>
    cases hA : d.analyzable <;>
      simp [handleEvent, onDidOpenTextDocument, hA, allSingleFile]
  | didClose d =>
    cases hA : d.analyzable <;>
      simp [handleEvent, onDidCloseTextDocument, hA, allSingleFile]
  | didChange d cs =>
    simp only [handleEvent]
    unfold onDidChangeTextDocument
    split
    · rfl
    · split
      · rfl
      · dsimp only
        split <;> simp [allSingleFile]

theorem runEvents_allSingleFile (env : Env) (st : HandlerState)
    (events : List DocEvent) :
    allSingleFile (runEvents env st events).2 = true := by
  induction events generalizing st with
  | nil => rfl
  | cons e rest ih =>
    simp only [runEvents, allSingleFile_append, Bool.and_eq_true]
    exact ⟨handleEvent_allSingleFile env st e, ih _⟩

theorem handleEvent_singleFileFor (env : Env) (st : HandlerState)
    (e : DocEvent) :
    allSingleFileFor (eventDocPath e) (handleEvent env st e).2 = true := by
  cases e with
  | didOpen d =>
    cases hA : d.analyzable <;>
      simp [handleEvent, onDidOpenTextDocument, hA, allSingleFileFor,
        eventDocPath]
  | didClose d =>
    cases hA : d.analyzable <;>
      simp [handleEvent, onDidCloseTextDocument, hA, allSingleFileFor,
        eventDocPath]
  | didChange d cs =>
    simp only [handleEvent]
    unfold onDidChangeTextDocument
    split
    · rfl
    · split
      · rfl
      · dsimp only
        split <;> simp [allSingleFileFor, eventDocPath]

/-- C10: every `analysisUpdateContent` call the handler issues — for
open, change and close events alike — carries a files map with exactly
one entry, and that entry is keyed by the path of the single document
the triggering event was about; consequently, over any run, overlay
operations for multiple documents are never batched into one request. -/
theorem c10_single_file_per_request (env : Env) (st : HandlerState)
    (e : DocEvent) (events : List DocEvent) :
    allSingleFileFor (eventDocPath e) (handleEvent env st e).2 = true
    ∧ allSingleFile (runEvents env st events).2 = true :=
  ⟨handleEvent_singleFileFor env st e, runEvents_allSingleFile env st events⟩

theorem changeEditBatches_onDidChange (env : Env) (st : HandlerState)
    (path text : String) (batch : List ContentChange) :
    changeEditBatches
        (onDidChangeTextDocument env st ⟨⟨path, text, true⟩, batch⟩).2 =
      if batch.isEmpty then [] else [batch.map convertChange] := by
  cases batch with
  | nil => rfl
  | cons c cs =>
    unfold onDidChangeTextDocument
    dsimp only
    split
    · simp_all
    · split
      · simp_all
      · dsimp only
        split <;> simp [changeEditBatches]

theorem replayEditBatches_step (text : String) (batch : List ContentChange) :
    replayEditBatches text
        (if batch.isEmpty then [] else [batch.map convertChange]) =
      applyContentChanges text batch := by
  cases batch with
  | nil => rfl
  | cons c cs =>
    simp only [List.isEmpty_cons, Bool.false_eq_true, if_false,
      replayEditBatches, List.foldl_cons, List.foldl_nil]
    exact applySourceEdits_map_convertChange text (c :: cs)

/-- C2: for every sequence of change events on one analyzable document,
replaying the edit batches of the emitted change overlays, in emission
order — each batch applied against the text produced by the previous
batches — over the pre-edit text yields exactly the post-edit text. -/
theorem c2_round_trip (env : Env) (st : HandlerState) (path text : String)
    (batches : List (List ContentChange)) :
    replayEditBatches text
        (changeEditBatches (runDocChanges env st path true text batches).2.2) =
      (runDocChanges env st path true text batches).2.1 := by
  induction batches generalizing st text with
  | nil => rfl
  | cons batch rest ih =>
    simp only [runDocChanges, changeEditBatches_append,
      replayEditBatches_append, changeEditBatches_onDidChange,
      replayEditBatches_step]
    exact ih _ _

end DartCode

namespace DartCode

theorem warnCount_nil (p : String) : warnCount p [] = 0 := rfl

theorem warnCount_updateContent (p : String) (f : List (String × Overlay)) :
    warnCount p [Effect.updateContent f] = 0 := by
  simp [warnCount, isWarnFor]

theorem warnCount_onDidOpen (p : String) (d : TextDocument) :
    warnCount p (onDidOpenTextDocument d) = 0 := by
  cases hA : d.analyzable <;>
    simp [onDidOpenTextDocument, hA, warnCount, isWarnFor]

theorem warnCount_onDidClose (p : String) (d : TextDocument) :
    warnCount p (onDidCloseTextDocument d) = 0 := by
  cases hA : d.analyzable <;>
    simp [onDidCloseTextDocument, hA, warnCount, isWarnFor]

theorem warnCount_warning (p q : String) :
    warnCount p [Effect.showWarning (warnMessage q)] =
      if q = p then 1 else 0 := by
  by_cases h : q = p
  · subst h
    simp [warnCount, isWarnFor]
  · have hne : (warnMessage q == warnMessage p) = false :=
      beq_eq_false_iff_ne.mpr fun hmsg => h (warnMessage_inj hmsg)
    simp [warnCount, isWarnFor, hne, h]

theorem warn_step (env : Env) (st : HandlerState) (e : DocEvent)
    (p : String) :
    (p ∈ st.filesWarnedAbout → warnCount p (handleEvent env st e).2 = 0)
    ∧ warnCount p (handleEvent env st e).2 ≤ 1
    ∧ (warnCount p (handleEvent env st e).2 = 0
        ∨ p ∈ (handleEvent env st e).1.filesWarnedAbout)
    ∧ (p ∈ st.filesWarnedAbout →
        p ∈ (handleEvent env st e).1.filesWarnedAbout) := by
  cases e with
  | didOpen d =>
    refine ⟨fun _ => warnCount_onDidOpen p d, ?_,
      Or.inl (warnCount_onDidOpen p d), fun h => h⟩
    simp [handleEvent, warnCount_onDidOpen]
  | didClose d =>
    refine ⟨fun _ => warnCount_onDidClose p d, ?_,
      Or.inl (warnCount_onDidClose p d), fun h => h⟩
    simp [handleEvent, warnCount_onDidClose]
  | didChange d cs =>
    simp only [handleEvent]
    unfold onDidChangeTextDocument
    split
    · exact ⟨fun _ => rfl, by simp [warnCount], Or.inl rfl, fun h => h⟩
    · split
      · exact ⟨fun _ => rfl, by simp [warnCount], Or.inl rfl, fun h => h⟩
      · dsimp only
        split
        case isTrue hcond =>
          have hmem : d.path ∉ st.filesWarnedAbout := by
            simp only [Bool.and_eq_true] at hcond
            have h2 := hcond.1.2
            simpa using h2
          have hcnt : warnCount p
              ([Effect.showWarning (warnMessage d.path)] ++
                [Effect.updateContent
                  [(d.path, .change (cs.map convertChange))]]) =
              if d.path = p then 1 else 0 := by
            rw [warnCount_append, warnCount_warning, warnCount_updateContent]
            exact Nat.add_zero _
          by_cases hqp : d.path = p
          · subst hqp
            refine ⟨fun hp => absurd hp hmem, ?_, Or.inr ?_, fun hp => ?_⟩
            · rw [hcnt]
              simp
            · exact List.mem_cons_self _ _
            · exact List.mem_cons_of_mem _ hp
          · refine ⟨fun _ => ?_, ?_, Or.inl ?_, fun hp => ?_⟩
            · rw [hcnt]
              simp [hqp]
            · rw [hcnt]
              simp [hqp]
            · rw [hcnt]
              simp [hqp]
            · exact List.mem_cons_of_mem _ hp
        case isFalse hcond =>
          have hcnt : warnCount p
              (([] : List Effect) ++
                [Effect.updateContent
                  [(d.path, .change (cs.map convertChange))]]) = 0 := by
            rw [warnCount_append, warnCount_nil, warnCount_updateContent]
          exact ⟨fun _ => hcnt, by rw [hcnt]; exact Nat.zero_le 1,
            Or.inl hcnt, fun h => h⟩

theorem warn_run (env : Env) (p : String) :
    ∀ (events : List DocEvent) (st : HandlerState),
    (p ∈ st.filesWarnedAbout → warnCount p (runEvents env st events).2 = 0)
    ∧ warnCount p (runEvents env st events).2 ≤ 1
    ∧ (warnCount p (runEvents env st events).2 = 0
        ∨ p ∈ (runEvents env st events).1.filesWarnedAbout)
    ∧ (p ∈ st.filesWarnedAbout →
        p ∈ (runEvents env st events).1.filesWarnedAbout)
  | [], st => ⟨fun _ => rfl, by simp [runEvents, warnCount], Or.inl rfl,
      fun h => h⟩
  | e :: rest, st => by
    obtain ⟨s1, s2, s3, s4⟩ := warn_step env st e p
    obtain ⟨r1, r2, r3, r4⟩ := warn_run env p rest (handleEvent env st e).1
    simp only [runEvents, warnCount_append]
    refine ⟨fun hp => ?_, ?_, ?_, fun hp => r4 (s4 hp)⟩
    · rw [s1 hp, r1 (s4 hp)]
    · rcases Nat.eq_zero_or_pos (warnCount p (handleEvent env st e).2) with
        h0 | hpos
      · rw [h0]
        simpa using r2
      · have h1 : p ∈ (handleEvent env st e).1.filesWarnedAbout := by
          rcases s3 with h | h
          · omega
          · exact h
        have := r1 h1
        omega
    · rcases Nat.eq_zero_or_pos (warnCount p (handleEvent env st e).2) with
        h0 | hpos
      · rcases r3 with h | h
        · exact Or.inl (by rw [h0, h])
        · exact Or.inr h
      · have h1 : p ∈ (handleEvent env st e).1.filesWarnedAbout := by
          rcases s3 with h | h
          · omega
          · exact h
        exact Or.inr (r4 h1)

/-- C9: in any run from a fresh handler, the out-of-workspace warning for
a given file path is shown at most once, whatever the event sequence; and
whenever it has been shown, the path is recorded in `filesWarnedAbout`. -/
theorem c9_warning_at_most_once (env : Env) (events : List DocEvent)
    (p : String) :
    warnCount p (runEvents env initialHandlerState events).2 ≤ 1
    ∧ (warnCount p (runEvents env initialHandlerState events).2 = 0
        ∨ p ∈ (runEvents env initialHandlerState events).1.filesWarnedAbout) :=
  ⟨(warn_run env p events initialHandlerState).2.1,
    (warn_run env p events initialHandlerState).2.2.1⟩

end DartCode

namespace DartCode.Analysis

theorem validFrom_append (xs ys : List AnalysisEvent) :
    ∀ b, validFrom b (xs ++ ys) =
      (validFrom b xs && validFrom (xs.foldl stepBusy b) ys) := by
  induction xs with
  | nil => intro b; simp [validFrom]
  | cons x rest ih =>
    intro b
    cases x with
    | started =>
      simp only [List.cons_append, validFrom, List.foldl_cons, stepBusy]
      exact ih true
    | finished =>
      show (b && validFrom false (rest ++ ys)) =
        ((b && validFrom false rest) &&
          validFrom (List.foldl stepBusy false rest) ys)
      rw [ih false, Bool.and_assoc]

theorem resolve_first_finished :
    ∀ (l : List AnalysisEvent) (j : Nat), resolveIndex l = some j →
      l.get? j = some .finished
      ∧ ∀ i, i < j → l.get? i ≠ some .finished := by
  intro l
  induction l with
  | nil => intro j h; simp [resolveIndex] at h
  | cons x rest ih =>
    intro j h
    cases x with
    | finished =>
      simp only [resolveIndex, Option.some.injEq] at h
      subst h
      exact ⟨rfl, fun i hi => absurd hi (Nat.not_lt_zero i)⟩
    | started =>
      simp only [resolveIndex, Option.map_eq_some'] at h
      obtain ⟨j', hj', rfl⟩ := h
      obtain ⟨h1, h2⟩ := ih j' hj'
      refine ⟨h1, fun i hi => ?_⟩
      cases i with
      | zero => simp [List.get?]
      | succ i' =>
        simpa [List.get?] using h2 i' (Nat.lt_of_succ_lt_succ hi)

theorem idle_first_finish_has_start :
    ∀ (l : List AnalysisEvent) (j : Nat), validFrom false l = true →
      resolveIndex l = some j →
      ∃ k, k < j ∧ l.get? k = some .started := by
  intro l
  cases l with
  | nil => intro j _ h; simp [resolveIndex] at h
  | cons x rest =>
    intro j hv h
    cases x with
    | finished => simp [validFrom] at hv
    | started =>
      simp only [resolveIndex, Option.map_eq_some'] at h
      obtain ⟨j', _, rfl⟩ := h
      exact ⟨0, Nat.succ_pos j', rfl⟩

theorem nextRoundIdx_spec :
    ∀ (l : List AnalysisEvent) (b : Bool) (j : Nat),
      nextRoundIdx b l = some j →
      l.get? j = some .finished
      ∧ (b = true ∨ ∃ k, k < j ∧ l.get? k = some .started)
      ∧ ∀ i, i < j →
          ¬(l.get? i = some .finished
            ∧ (b = true ∨ ∃ k, k < i ∧ l.get? k = some .started)) := by
  intro l
  induction l with
  | nil => intro b j h; simp [nextRoundIdx] at h
  | cons x rest ih =>
    intro b j h
    cases x with
    | started =>
      simp only [nextRoundIdx, Option.map_eq_some'] at h
      obtain ⟨j', hj', rfl⟩ := h
      obtain ⟨h1, _, h3⟩ := ih true j' hj'
      refine ⟨h1, Or.inr ⟨0, Nat.succ_pos j', rfl⟩, fun i hi => ?_⟩
      cases i with
      | zero => rintro ⟨hfin, -⟩; simp [List.get?] at hfin
      | succ i' =>
        rintro ⟨hfin, -⟩
        exact h3 i' (Nat.lt_of_succ_lt_succ hi)
          ⟨by simpa [List.get?] using hfin, Or.inl rfl⟩
    | finished =>
      cases b with
      | true =>
        simp only [nextRoundIdx, if_pos, Option.some.injEq] at h
        subst h
        exact ⟨rfl, Or.inl rfl, fun i hi => absurd hi (Nat.not_lt_zero i)⟩
      | false =>
        simp only [nextRoundIdx, Bool.false_eq_true, if_false,
          Option.map_eq_some'] at h
        obtain ⟨j', hj', rfl⟩ := h
        obtain ⟨h1, h2, h3⟩ := ih false j' hj'
        have h2' : ∃ k, k < j' ∧ rest.get? k = some .started := by
          rcases h2 with h | h
          · exact absurd h (by simp)
          · exact h
        obtain ⟨k, hk, hks⟩ := h2'
        refine ⟨h1, Or.inr ⟨k + 1, Nat.succ_lt_succ hk, by
          simpa [List.get?] using hks⟩, fun i hi => ?_⟩
        cases i with
        | zero =>
          rintro ⟨-, hstart⟩
          rcases hstart with h | ⟨k', hk', -⟩
          · simp at h
          · exact absurd hk' (Nat.not_lt_zero k')
        | succ i' =>
          rintro ⟨hfin, hstart⟩
          rcases hstart with h | ⟨k', hk', hks'⟩
          · simp at h
          · cases k' with
            | zero => simp [List.get?] at hks'
            | succ k'' =>
              exact h3 i' (Nat.lt_of_succ_lt_succ hi)
                ⟨by simpa [List.get?] using hfin,
                 Or.inr ⟨k'', Nat.lt_of_succ_lt_succ hk',
                   by simpa [List.get?] using hks'⟩⟩

/-- C8: a token obtained from the next-analysis-round operation
(`awaitNextRound` / `nextAnalysis`) immediately after an edit is sent
resolves only at an analysis-finished event occurring after the call,
never before at least one full analysis start→finish cycle following that
edit has completed: whatever notifications follow the call — including the
finish of a round already in flight when the edit was sent — the
resolution point is a finished event that a post-call started event
precedes, and at no earlier point has a post-call start→finish cycle
completed. -/
theorem c8_next_round_never_early (suffix : List AnalysisEvent) (j : Nat)
    (hRes : nextRoundResolveIndex suffix = some j) :
    suffix.get? j = some .finished
    ∧ (∃ k, k < j ∧ suffix.get? k = some .started)
    ∧ ∀ i, i < j →
        ¬(suffix.get? i = some .finished
          ∧ ∃ k, k < i ∧ suffix.get? k = some .started) := by
  obtain ⟨h1, h2, h3⟩ := nextRoundIdx_spec suffix false j hRes
  refine ⟨h1, ?_, fun i hi ⟨hfin, hex⟩ => h3 i hi ⟨hfin, Or.inr hex⟩⟩
  rcases h2 with h | h
  · exact absurd h (by simp)
  · exact h

/-- Witness for C8 at a call made while a round is already in flight: the
pending round's finish at index 0 is skipped, and the token resolves only
at index 2, after the post-call cycle started at index 1. -/
theorem c8_next_round_never_early_witness :
    (nextRoundResolveIndex
        ([.finished, .started, .finished] : List AnalysisEvent) = some 2)
    ∧ ((([.finished, .started, .finished] : List AnalysisEvent).get? 2 =
          some .finished)
      ∧ (∃ k, k < 2 ∧
          (([.finished, .started, .finished] : List AnalysisEvent).get? k =
            some .started))
      ∧ ∀ i, i < 2 →
          ¬((([.finished, .started, .finished] :
              List AnalysisEvent).get? i = some .finished)
            ∧ ∃ k, k < i ∧
              (([.finished, .started, .finished] :
                List AnalysisEvent).get? k = some .started))) :=
  ⟨rfl, c8_next_round_never_early [.finished, .started, .finished] 2 rfl⟩

end DartCode.Analysis
